import Mathlib

/-!
Verification of the whisper-websocket-server session and sanitization logic
(`minimal-fw-mem.py`) against its specification.

Strings from the Python side are modelled as lists of characters (`Str`),
bytes as natural numbers below 256, and the float32 samples produced by
`astype(np.float32) / 32768.0` as rationals: every value arising here is an
integer in [-32768, 32767] divided by 2^15, which float32 represents exactly,
so the rational model is faithful.
-/

namespace WhisperWS

/-- Python strings are modelled as lists of characters. -/
abbrev Str := List Char

/-- True when a character is not a newline.  Python's `.` in a regex without
`re.DOTALL` matches exactly the non-newline characters. -/
def noNL (c : Char) : Bool := decide (c ≠ '\n')

/-! ## Signal normalizer

`audio_np = np.frombuffer(audio_data, dtype=np.int16).astype(np.float32) / 32768.0`
(`minimal-fw-mem.py` line 161).  `np.frombuffer` interprets the byte buffer as
little-endian signed 16-bit integers and raises `ValueError` ("buffer size must
be a multiple of element size") when the byte length is not a multiple of 2. -/

/-- The signed 16-bit integer encoded little-endian by the two bytes `b0 b1`. -/
def int16OfLE (b0 b1 : Nat) : Int :=
  if b0 + 256 * b1 < 32768 then ((b0 : Int) + 256 * (b1 : Int))
  else ((b0 : Int) + 256 * (b1 : Int)) - 65536

/-- Consecutive byte pairs of a buffer, in order (the int16 lattice of
`np.frombuffer`).  A trailing odd byte is never reached because `normalize`
rejects odd lengths first, as `np.frombuffer` does. -/
def pairsOf : List Nat → List (Nat × Nat)
  | [] => []
  | [_] => []
  | b0 :: b1 :: rest => (b0, b1) :: pairsOf rest

/-- The normalized signal of an even-length buffer: each little-endian int16
sample divided by 32768, as an exact rational. -/
def normalizeEven (bytes : List Nat) : List ℚ :=
  (pairsOf bytes).map (fun p => ((int16OfLE p.1 p.2 : ℚ) / 32768))

/-- `np.frombuffer(..., dtype=np.int16).astype(np.float32) / 32768.0`:
succeeds exactly on buffers of even length; an odd-length buffer raises
`ValueError`, modelled as the error branch. -/
def normalize (bytes : List Nat) : Except String (List ℚ) :=
  if bytes.length % 2 = 0 then Except.ok (normalizeEven bytes)
  else Except.error "buffer size must be a multiple of element size"

/-! ## Transcript sanitizer

Lines 163-178 of `minimal-fw-mem.py`:
  rr = [segment.text ...]; m = " ".join(rr); m = m.strip();
  m = re.sub(r"\[.*\]", "", m); m = re.sub(ofquote, backslash-quote, m);
  for a, b in corrections: m = re.sub(a, b, m). -/

/-- Python `str` whitespace characters relevant to `str.strip()` (the ASCII
whitespace set). -/
def pySpace (c : Char) : Bool :=
  c = ' ' || c = '\t' || c = '\n' || c = '\r' || c = '\x0b' || c = '\x0c'

/-- Python `str.strip()`: remove leading and trailing whitespace. -/
def strip (l : Str) : Str :=
  ((l.dropWhile pySpace).reverse.dropWhile pySpace).reverse

/-- Split a newline-free segment `t` as `u ++ ']' :: v` at the LAST `']'` of
`t` (so `']' ∉ v`), or `none` when `t` holds no `']'`.  This is where the
greedy `.*` of `re.sub(r"\[.*\]", "", m)` backtracks to. -/
def splitLastRB : Str → Option (Str × Str)
  | [] => none
  | c :: rest =>
    match splitLastRB rest with
    | some (u, v) => some (c :: u, v)
    | none => if c = ']' then some ([], rest) else none

/-- Fuelled core of the greedy bracket removal `re.sub(r"\[.*\]", "", m)`:
scan left to right; at a `'['`, the greedy match extends to the last `']'`
reachable without crossing a newline (Python `.` does not match newline); on
a match the whole span is deleted and scanning resumes after it; otherwise
the character is kept.  The fuel only needs to dominate the list length. -/
def bracketSubF : Nat → Str → Str
  | 0, l => l
  | _ + 1, [] => []
  | fuel + 1, c :: rest =>
    if c = '[' then
      match splitLastRB (rest.takeWhile noNL) with
      | some (_, v) => bracketSubF fuel (v ++ rest.dropWhile noNL)
      | none => c :: bracketSubF fuel rest
    else c :: bracketSubF fuel rest

/-- `re.sub(r"\[.*\]", "", m)` of line 171. -/
def bracketSub (l : Str) : Str := bracketSubF l.length l

/-- Line 174: every double-quote character is replaced by backslash followed
by double-quote. -/
def quoteEsc : Str → Str
  | [] => []
  | c :: rest => if c = '"' then '\\' :: '"' :: quoteEsc rest else c :: quoteEsc rest

/-- The full sanitization pipeline of `on_message`, lines 163-178, with the
configured correction rules abstracted as string transformers applied in
order by the final loop. -/
def sanitize (corrections : List (Str → Str)) (segs : List Str) : Str :=
  let m := List.intercalate [' '] segs
  let m2 := strip m
  let m3 := bracketSub m2
  let m4 := quoteEsc m3
  corrections.foldl (fun acc f => f acc) m4

/-! Spec-side step functions for the sanitizer contract (spec section 4.4),
one definition per numbered step, following the spec's words. -/

/-- Spec step 1: join all segment texts with a single space separator. -/
def stepJoin (segs : List Str) : Str := List.intercalate [' '] segs

/-- Spec step 2: trim leading and trailing whitespace. -/
def stepTrim (m : Str) : Str := strip m

/-- Spec step 3: remove every maximal run matching the greedy regex. -/
def stepBrackets (m : Str) : Str := bracketSub m

/-- Spec step 4: prefix every literal double-quote with a backslash. -/
def stepQuotes (m : Str) : Str := quoteEsc m

/-- Spec step 5: apply each correction rule sequentially in configured
order. -/
def stepCorrections (corrections : List (Str → Str)) (m : Str) : Str :=
  corrections.foldl (fun acc f => f acc) m

/-! ## Output invariant predicates -/

/-- Whether a string holds a `']'`. -/
def hasRB : Str → Bool
  | [] => false
  | c :: rest => if c = ']' then true else hasRB rest

/-- Whether some `'['` is followed, with no intervening newline, by a later
`']'` — i.e. whether the string holds a substring matching `\[.*\]`. -/
def hasBracketPair : Str → Bool
  | [] => false
  | c :: rest =>
    if c = '[' then (hasRB (rest.takeWhile noNL) || hasBracketPair rest)
    else hasBracketPair rest

/-- Scans a string knowing the previous character: true when every
double-quote seen is immediately preceded by a backslash. -/
def okQuotesFrom (prev : Option Char) : Str → Bool
  | [] => true
  | c :: rest =>
    (if c = '"' then decide (prev = some '\\') else true) && okQuotesFrom (some c) rest

/-- Every double-quote in the string is immediately preceded by a
backslash (a leading double-quote is not). -/
def okQuotes (l : Str) : Bool := okQuotesFrom none l

/-! ## Session protocol handler

`on_connect` (line 136) attaches an empty chunk list `abuf` to the client;
`on_message` (lines 147-190) appends binary frames to it and, on any text
frame, joins the buffer, normalizes, transcribes, sanitizes and sends the
single JSON response before closing. -/

/-- An inbound websocket frame as delivered by the framework: either a
binary chunk of audio bytes or a text frame. -/
inductive Msg where
  | binary (chunk : List Nat)
  | text (s : Str)

/-- Observable effects of the handler: invoking the transcription engine,
sending an outbound text frame, closing the connection, or an exception
escaping the handler (only `WebSocketError` is caught by `on_message`). -/
inductive Ev where
  | engineCall (sig : List ℚ)
  | send (frame : Str)
  | close
  | raised (e : String)

/-- Fixed head of the interpolated response string of line 180, up to the
spliced transcript. -/
def respHead : Str :=
  ("\x7b\"status\": 0, \"segment\": 0, \"result\": \x7b\"hypotheses\": [\x7b\"transcript\": \"").data

/-- Fixed tail of the interpolated response string of line 180, after the
spliced transcript; it carries the constant placeholder id. -/
def respTail : Str :=
  ("\"\x7d], \"final\": true\x7d, \"id\": \"1aacc69d-3674-438a-b3c5-fc0ed51769a5\"\x7d").data

/-- The outbound JSON text frame of line 180: the sanitized transcript
spliced between the two fixed literal pieces. -/
def responseMsg (m : Str) : Str := respHead ++ m ++ respTail

/-- The text-frame branch of `on_message` (lines 152-185): join the
accumulated chunks, normalize, call the engine, sanitize, send, close.
When `normalize` fails (odd byte length) the `ValueError` escapes — the
handler catches only `WebSocketError` — so no call, send or close happens. -/
def finalize (engine : List ℚ → List Str) (corrections : List (Str → Str))
    (abuf : List (List Nat)) : List Ev :=
  match normalize abuf.flatten with
  | Except.error e => [Ev.raised e]
  | Except.ok sig =>
    [Ev.engineCall sig,
     Ev.send (responseMsg (sanitize corrections (engine sig))),
     Ev.close]

/-- One `on_message` call: a binary frame is appended to `abuf` with no
outbound effect; a text frame — whatever its content — finalizes, leaving
`abuf` itself untouched (the code never clears `client.abuf`). -/
def stepMsg (engine : List ℚ → List Str) (corrections : List (Str → Str))
    (abuf : List (List Nat)) : Msg → List (List Nat) × List Ev
  | Msg.binary c => (abuf ++ [c], [])
  | Msg.text _ => (abuf, finalize engine corrections abuf)

/-- Deliver a list of frames to one session in order, accumulating the
emitted events. -/
def runMsgs (engine : List ℚ → List Str) (corrections : List (Str → Str)) :
    List (List Nat) → List Msg → List (List Nat) × List Ev
  | abuf, [] => (abuf, [])
  | abuf, msg :: rest =>
    let r := stepMsg engine corrections abuf msg
    let r2 := runMsgs engine corrections r.1 rest
    (r2.1, r.2 ++ r2.2)

/-- The frames sent on the wire among a list of events. -/
def sentFrames (evs : List Ev) : List Str :=
  evs.filterMap (fun e => match e with | Ev.send f => some f | _ => none)

/-- A stub engine for concrete witnesses: returns no segments. -/
def engineStub : List ℚ → List Str := fun _ => []

/-! ## Transport-error model for the try/except of `on_message`

The body of `on_message` is wrapped in `try ... except WebSocketError`
(lines 188-190): a websocket error raised by `client.send` or
`client.close` is caught and logged, and the handler returns normally;
any other exception (such as the `ValueError` from `np.frombuffer`)
propagates. -/

/-- Outcome of one transport operation (send or close). -/
inductive SendOutcome where
  | ok
  | wsError
deriving DecidableEq

/-- A Python exception relevant to the handler. -/
inductive PyExc where
  | webSocketError
  | valueError (msg : String)
deriving DecidableEq

/-- How a handler invocation terminates. -/
inductive ExitKind where
  | normalReturn
  | uncaught (e : PyExc)
deriving DecidableEq

/-- Trace of the send/close tail of the text branch: how many times each
transport operation was attempted and the exception it raised, if any.
A failing send aborts the body before `client.close` is reached. -/
structure SendCloseRun where
  sendAttempts : Nat
  closeAttempts : Nat
  raised : Option PyExc

/-- The `client.send(msg); client.close()` tail (lines 184-185) under the
given transport outcomes. -/
def sendCloseBody (sendOut closeOut : SendOutcome) : SendCloseRun :=
  match sendOut with
  | SendOutcome.wsError => ⟨1, 0, some PyExc.webSocketError⟩
  | SendOutcome.ok =>
    match closeOut with
    | SendOutcome.wsError => ⟨1, 1, some PyExc.webSocketError⟩
    | SendOutcome.ok => ⟨1, 1, none⟩

/-- The `except WebSocketError` clause (lines 188-190): a websocket error
is swallowed (logged), anything else propagates. -/
def catchWebSocketError : Option PyExc → ExitKind
  | none => ExitKind.normalReturn
  | some PyExc.webSocketError => ExitKind.normalReturn
  | some (PyExc.valueError m) => ExitKind.uncaught (PyExc.valueError m)

/-- The handler around the send/close tail: run the body, then the except
clause decides how the invocation terminates. -/
def finalizeHandler (sendOut closeOut : SendOutcome) : Nat × Nat × ExitKind :=
  let r := sendCloseBody sendOut closeOut
  (r.sendAttempts, r.closeAttempts, catchWebSocketError r.raised)

/-- A concrete correction rule that rewrites every `'a'` to a double-quote,
the transformer of `re.sub("a", quote, m)`; used to exercise the
corrections-after-escaping order. -/
def quoteInjectingRule : Str → Str :=
  fun l => l.map (fun c => if c = 'a' then '"' else c)

/-! ## Supporting lemmas -/

theorem hasRB_append_rb : ∀ (u v : Str), hasRB (u ++ ']' :: v) = true
  | [], v => by simp [hasRB]
  | c :: u, v => by
    by_cases hc : c = ']'
    · simp [hasRB, hc]
    · simp only [List.cons_append, hasRB, if_neg hc]
      exact hasRB_append_rb u v

theorem splitLastRB_some : ∀ (t u v : Str), splitLastRB t = some (u, v) →
    t = u ++ ']' :: v
  | [], u, v, h => by simp [splitLastRB] at h
  | c :: rest, u, v, h => by
    rw [splitLastRB] at h
    rcases hr : splitLastRB rest with _ | ⟨u1, v1⟩
    · rw [hr] at h
      by_cases hc : c = ']'
      · simp only [if_pos hc, Option.some.injEq, Prod.mk.injEq] at h
        rw [← h.1, ← h.2, hc]
        rfl
      · simp [if_neg hc] at h
    · rw [hr] at h
      simp only [Option.some.injEq, Prod.mk.injEq] at h
      have ht := splitLastRB_some rest u1 v1 hr
      rw [← h.1, ← h.2, ht]
      rfl

theorem splitLastRB_none_hasRB : ∀ (t : Str), splitLastRB t = none → hasRB t = false
  | [], _ => rfl
  | c :: rest, h => by
    rw [splitLastRB] at h
    rcases hr : splitLastRB rest with _ | ⟨u1, v1⟩
    · rw [hr] at h
      by_cases hc : c = ']'
      · simp [if_pos hc] at h
      · simp only [hasRB, if_neg hc]
        exact splitLastRB_none_hasRB rest hr
    · rw [hr] at h
      simp at h

theorem bracketSubF_line : ∀ (f : Nat) (l : Str), l.length ≤ f →
    hasRB (l.takeWhile noNL) = false →
    hasRB ((bracketSubF f l).takeWhile noNL) = false
  | 0, l, hf, h => by
    have hl : l = [] := List.length_eq_zero.mp (Nat.le_zero.mp hf)
    subst hl
    simpa [bracketSubF] using h
  | f + 1, [], _, _ => by simp [bracketSubF, hasRB]
  | f + 1, c :: rest, hf, h => by
    have hrest : rest.length ≤ f := by
      simp only [List.length_cons] at hf; omega
    by_cases hc : c = '['
    · subst hc
      have hno : noNL '[' = true := by decide
      have hne : ('[' : Char) ≠ ']' := by decide
      rw [List.takeWhile_cons, hno, if_pos rfl, hasRB, if_neg hne] at h
      rcases hsp : splitLastRB (rest.takeWhile noNL) with _ | ⟨u, v⟩
      · rw [show bracketSubF (f+1) ('[' :: rest) = '[' :: bracketSubF f rest from by
          simp [bracketSubF, hsp]]
        rw [List.takeWhile_cons, hno, if_pos rfl, hasRB, if_neg hne]
        exact bracketSubF_line f rest hrest h
      · exact absurd (by rw [splitLastRB_some _ _ _ hsp] at h; rw [hasRB_append_rb] at h; exact h)
          (by simp)
    · rw [show bracketSubF (f+1) (c :: rest) = c :: bracketSubF f rest from by
        simp [bracketSubF, hc]]
      by_cases hn : c = '\n'
      · subst hn
        have hno : noNL '\n' = false := by decide
        rw [List.takeWhile_cons, hno]
        simp [hasRB]
      · have hno : noNL c = true := by simp [noNL]; exact hn
        rw [List.takeWhile_cons, hno, if_pos rfl, hasRB] at h ⊢
        by_cases hrb : c = ']'
        · rw [if_pos hrb] at h
          exact absurd h (by simp)
        · rw [if_neg hrb] at h ⊢
          exact bracketSubF_line f rest hrest h

theorem bracketSubF_noPair : ∀ (f : Nat) (l : Str), l.length ≤ f →
    hasBracketPair (bracketSubF f l) = false
  | 0, l, hf => by
    have hl : l = [] := List.length_eq_zero.mp (Nat.le_zero.mp hf)
    subst hl
    simp [bracketSubF, hasBracketPair]
  | f + 1, [], _ => by simp [bracketSubF, hasBracketPair]
  | f + 1, c :: rest, hf => by
    have hrest : rest.length ≤ f := by
      simp only [List.length_cons] at hf; omega
    by_cases hc : c = '['
    · subst hc
      rcases hsp : splitLastRB (rest.takeWhile noNL) with _ | ⟨u, v⟩
      · rw [show bracketSubF (f+1) ('[' :: rest) = '[' :: bracketSubF f rest from by
          simp [bracketSubF, hsp]]
        rw [hasBracketPair, if_pos rfl]
        have h1 : hasRB ((bracketSubF f rest).takeWhile noNL) = false :=
          bracketSubF_line f rest hrest (splitLastRB_none_hasRB _ hsp)
        rw [h1, bracketSubF_noPair f rest hrest]
        rfl
      · rw [show bracketSubF (f+1) ('[' :: rest) =
            bracketSubF f (v ++ rest.dropWhile noNL) from by simp [bracketSubF, hsp]]
        have hsplit := splitLastRB_some _ _ _ hsp
        have htd : rest.takeWhile noNL ++ rest.dropWhile noNL = rest :=
          List.takeWhile_append_dropWhile noNL rest
        have hlen1 : (rest.takeWhile noNL).length + (rest.dropWhile noNL).length
            = rest.length := by rw [← List.length_append, htd]
        have hlen2 : (rest.takeWhile noNL).length = u.length + 1 + v.length := by
          rw [hsplit]
          simp only [List.length_append, List.length_cons]
          omega
        exact bracketSubF_noPair f (v ++ rest.dropWhile noNL) (by simp; omega)
    · rw [show bracketSubF (f+1) (c :: rest) = c :: bracketSubF f rest from by
        simp [bracketSubF, hc]]
      rw [hasBracketPair, if_neg hc]
      exact bracketSubF_noPair f rest hrest

theorem quoteEsc_takeWhile : ∀ l : Str,
    (quoteEsc l).takeWhile noNL = quoteEsc (l.takeWhile noNL)
  | [] => rfl
  | c :: rest => by
    by_cases hq : c = '"'
    · subst hq
      have h1 : noNL '\\' = true := by decide
      have h2 : noNL '"' = true := by decide
      rw [show quoteEsc ('"' :: rest) = '\\' :: '"' :: quoteEsc rest from by
        simp [quoteEsc]]
      rw [List.takeWhile_cons, h1, if_pos rfl, List.takeWhile_cons, h2, if_pos rfl]
      rw [List.takeWhile_cons, h2, if_pos rfl]
      rw [show quoteEsc ('"' :: rest.takeWhile noNL) =
        '\\' :: '"' :: quoteEsc (rest.takeWhile noNL) from by simp [quoteEsc]]
      rw [quoteEsc_takeWhile rest]
    · by_cases hn : c = '\n'
      · subst hn
        have h1 : noNL '\n' = false := by decide
        rw [show quoteEsc ('\n' :: rest) = '\n' :: quoteEsc rest from by
          simp [quoteEsc, hq]]
        rw [List.takeWhile_cons, h1, List.takeWhile_cons, h1]
        rfl
      · have h1 : noNL c = true := by simp [noNL]; exact hn
        rw [show quoteEsc (c :: rest) = c :: quoteEsc rest from by simp [quoteEsc, hq]]
        rw [List.takeWhile_cons, h1, if_pos rfl, List.takeWhile_cons, h1, if_pos rfl]
        rw [show quoteEsc (c :: rest.takeWhile noNL) = c :: quoteEsc (rest.takeWhile noNL)
          from by simp [quoteEsc, hq]]
        rw [quoteEsc_takeWhile rest]

theorem hasRB_quoteEsc : ∀ l : Str, hasRB (quoteEsc l) = hasRB l
  | [] => rfl
  | c :: rest => by
    by_cases hq : c = '"'
    · subst hq
      have h1 : ('\\' : Char) ≠ ']' := by decide
      have h2 : ('"' : Char) ≠ ']' := by decide
      rw [show quoteEsc ('"' :: rest) = '\\' :: '"' :: quoteEsc rest from by
        simp [quoteEsc]]
      rw [hasRB, if_neg h1, hasRB, if_neg h2, hasRB, if_neg h2]
      exact hasRB_quoteEsc rest
    · rw [show quoteEsc (c :: rest) = c :: quoteEsc rest from by simp [quoteEsc, hq]]
      by_cases hr : c = ']'
      · rw [hasRB, if_pos hr, hasRB, if_pos hr]
      · rw [hasRB, if_neg hr, hasRB, if_neg hr]
        exact hasRB_quoteEsc rest

theorem hasBracketPair_quoteEsc : ∀ l : Str, hasBracketPair l = false →
    hasBracketPair (quoteEsc l) = false
  | [], _ => rfl
  | c :: rest, h => by
    by_cases hq : c = '"'
    · subst hq
      have h1 : ('\\' : Char) ≠ '[' := by decide
      have h2 : ('"' : Char) ≠ '[' := by decide
      rw [hasBracketPair, if_neg h2] at h
      rw [show quoteEsc ('"' :: rest) = '\\' :: '"' :: quoteEsc rest from by
        simp [quoteEsc]]
      rw [hasBracketPair, if_neg h1, hasBracketPair, if_neg h2]
      exact hasBracketPair_quoteEsc rest h
    · rw [show quoteEsc (c :: rest) = c :: quoteEsc rest from by simp [quoteEsc, hq]]
      by_cases hb : c = '['
      · rw [hasBracketPair, if_pos hb] at h ⊢
        rw [Bool.or_eq_false_iff] at h
        rw [quoteEsc_takeWhile, hasRB_quoteEsc, h.1,
          hasBracketPair_quoteEsc rest h.2]
        rfl
      · rw [hasBracketPair, if_neg hb] at h ⊢
        exact hasBracketPair_quoteEsc rest h

theorem okQuotesFrom_quoteEsc : ∀ (l : Str) (prev : Option Char),
    okQuotesFrom prev (quoteEsc l) = true
  | [], _ => rfl
  | c :: rest, prev => by
    by_cases hq : c = '"'
    · subst hq
      have h1 : ('\\' : Char) ≠ '"' := by decide
      rw [show quoteEsc ('"' :: rest) = '\\' :: '"' :: quoteEsc rest from by
        simp [quoteEsc]]
      rw [okQuotesFrom, if_neg h1, okQuotesFrom, if_pos rfl]
      simp [okQuotesFrom_quoteEsc rest]
    · rw [show quoteEsc (c :: rest) = c :: quoteEsc rest from by simp [quoteEsc, hq]]
      rw [okQuotesFrom, if_neg hq]
      simp [okQuotesFrom_quoteEsc rest]

theorem pairsOf_length : ∀ l : List Nat, (pairsOf l).length = l.length / 2
  | [] => rfl
  | [_] => by simp [pairsOf]
  | _ :: _ :: rest => by
    simp only [pairsOf, List.length_cons, pairsOf_length rest]
    omega

theorem pairsOf_getElem? : ∀ (l : List Nat) (i : Nat), i < l.length / 2 →
    (pairsOf l)[i]? = some (l.getD (2*i) 0, l.getD (2*i+1) 0)
  | [], i, h => by simp at h
  | [a], i, h => by
    simp only [List.length_cons, List.length_nil] at h
    omega
  | a :: b :: r, 0, _ => by simp [pairsOf, List.getD]
  | a :: b :: r, i+1, h => by
    have hi : i < r.length / 2 := by
      simp only [List.length_cons] at h; omega
    have ih := pairsOf_getElem? r i hi
    have e1 : 2 * (i+1) = 2*i + 1 + 1 := by ring
    rw [e1]
    simp only [pairsOf, List.getElem?_cons_succ, List.getD_cons_succ]
    exact ih

theorem pairsOf_mem : ∀ {l : List Nat} {p : Nat × Nat}, p ∈ pairsOf l →
    p.1 ∈ l ∧ p.2 ∈ l
  | [], p, h => by simp [pairsOf] at h
  | [_], p, h => by simp [pairsOf] at h
  | a :: b :: r, p, h => by
    rcases List.mem_cons.mp h with h1 | h2
    · subst h1
      exact ⟨List.mem_cons_self _ _, List.mem_cons.mpr (Or.inr (List.mem_cons_self _ _))⟩
    · have hr := pairsOf_mem h2
      exact ⟨List.mem_cons.mpr (Or.inr (List.mem_cons.mpr (Or.inr hr.1))),
             List.mem_cons.mpr (Or.inr (List.mem_cons.mpr (Or.inr hr.2)))⟩

theorem int16OfLE_bounds {b0 b1 : Nat} (h0 : b0 < 256) (h1 : b1 < 256) :
    -32768 ≤ int16OfLE b0 b1 ∧ int16OfLE b0 b1 < 32768 := by
  unfold int16OfLE
  split <;> constructor <;> omega

theorem runMsgs_binThenText (e : List ℚ → List Str) (co : List (Str → Str))
    (abuf chunks : List (List Nat)) (s : Str) :
    runMsgs e co abuf (chunks.map Msg.binary ++ [Msg.text s]) =
      (abuf ++ chunks, finalize e co (abuf ++ chunks)) := by
  induction chunks generalizing abuf with
  | nil => simp [runMsgs, stepMsg]
  | cons c cs ih =>
    simp only [List.map_cons, List.cons_append, runMsgs, stepMsg, List.append_eq]
    rw [ih]
    simp

/-! ## Claim theorems -/

/-- C1: a session receiving N binary frames totaling B bytes (B even, N
possibly zero) followed by one text frame emits exactly one engine call,
one outbound response frame, and one close — and the engine is invoked
with the normalization of the chunks concatenated in arrival order,
holding exactly B/2 samples. -/
theorem session_even_buffer (e : List ℚ → List Str) (co : List (Str → Str))
    (chunks : List (List Nat)) (s : Str)
    (h : chunks.flatten.length % 2 = 0) :
    runMsgs e co [] (chunks.map Msg.binary ++ [Msg.text s]) =
      (chunks,
       [Ev.engineCall (normalizeEven chunks.flatten),
        Ev.send (responseMsg (sanitize co (e (normalizeEven chunks.flatten)))),
        Ev.close]) ∧
    (normalizeEven chunks.flatten).length = chunks.flatten.length / 2 := by
  constructor
  · rw [runMsgs_binThenText]
    simp only [List.nil_append, finalize, normalize]
    rw [if_pos h]
  · simp only [normalizeEven, List.length_map, pairsOf_length]

/-- Witness for C1 at the empty session (N = 0, B = 0) with the stub
engine and the sentinel text EOS. -/
theorem session_even_buffer_witness :
    ((([] : List (List Nat)).flatten.length % 2 = 0)) ∧
    (runMsgs engineStub [] [] (([] : List (List Nat)).map Msg.binary
        ++ [Msg.text (("EOS").data)]) =
      (([] : List (List Nat)),
       [Ev.engineCall (normalizeEven ([] : List (List Nat)).flatten),
        Ev.send (responseMsg (sanitize []
          (engineStub (normalizeEven ([] : List (List Nat)).flatten)))),
        Ev.close]) ∧
     (normalizeEven ([] : List (List Nat)).flatten).length
        = ([] : List (List Nat)).flatten.length / 2) :=
  ⟨by decide, session_even_buffer engineStub [] [] (("EOS").data) (by decide)⟩

/-- C2 counterexample: on an odd-length buffer the code does NOT silently
drop the trailing byte — `np.frombuffer` raises, the exception escapes the
handler (only `WebSocketError` is caught), and no response is sent. -/
theorem odd_buffer_truncation_refuted :
    normalize [0] = Except.error "buffer size must be a multiple of element size" ∧
    finalize engineStub [] [[0]] =
      [Ev.raised "buffer size must be a multiple of element size"] ∧
    sentFrames (finalize engineStub [] [[0]]) = [] :=
  ⟨rfl, rfl, rfl⟩

/-- C2 (amended): when the accumulated buffer has odd byte length,
finalization raises the buffer-size error instead of truncating; the
engine is never invoked and no frame is sent. -/
theorem odd_buffer_raises (e : List ℚ → List Str) (co : List (Str → Str))
    (abuf : List (List Nat)) (h : abuf.flatten.length % 2 = 1) :
    finalize e co abuf =
      [Ev.raised "buffer size must be a multiple of element size"] ∧
    sentFrames (finalize e co abuf) = [] := by
  have h0 : ¬ abuf.flatten.length % 2 = 0 := by omega
  constructor
  · simp only [finalize, normalize]
    rw [if_neg h0]
  · simp only [finalize, normalize, sentFrames]
    rw [if_neg h0]
    rfl

/-- Witness for C2 (amended) at the one-byte buffer. -/
theorem odd_buffer_raises_witness :
    ((([[0]] : List (List Nat)).flatten.length % 2 = 1)) ∧
    (finalize engineStub [] [[0]] =
      [Ev.raised "buffer size must be a multiple of element size"] ∧
     sentFrames (finalize engineStub [] [[0]]) = []) :=
  ⟨by decide, odd_buffer_raises engineStub [] [[0]] (by decide)⟩

/-- C3 counterexample: sanitizing the single segment yields a string with
a leading space, not the bare word — trimming runs before bracket removal,
so the space freed by the greedy deletion survives. -/
theorem greedy_trim_order_refuted :
    sanitize [] [("[noise] hello [music] world").data] = (" world").data ∧
    sanitize [] [("[noise] hello [music] world").data] ≠ ("world").data := by
  constructor <;> decide

/-- C3 (amended): the greedy removal deletes the span from the first
opening bracket to the last closing bracket, and the result is the
original tail with its leading space retained, since the trim step
precedes bracket removal. -/
theorem sanitize_greedy_span :
    bracketSub (("[noise] hello [music] world").data) = (" world").data ∧
    sanitize [] [("[noise] hello [music] world").data] = ' ' :: ("world").data := by
  constructor <;> decide

/-- C4: on a byte sequence of even length 2n (bytes below 256), normalize
succeeds with exactly n values, the i-th being the i-th little-endian
int16 sample divided by 32768, and every value lies in [-1, 1). -/
theorem normalize_even_spec (bytes : List Nat) (n : Nat)
    (hlen : bytes.length = 2 * n) (hb : ∀ b ∈ bytes, b < 256) :
    normalize bytes = Except.ok (normalizeEven bytes) ∧
    (normalizeEven bytes).length = n ∧
    (∀ i, i < n → (normalizeEven bytes)[i]? =
      some ((int16OfLE (bytes.getD (2*i) 0) (bytes.getD (2*i+1) 0) : ℚ) / 32768)) ∧
    (∀ q ∈ normalizeEven bytes, -1 ≤ q ∧ q < 1) := by
  refine ⟨?_, ?_, ?_, ?_⟩
  · have h2 : bytes.length % 2 = 0 := by omega
    simp [normalize, h2]
  · simp only [normalizeEven, List.length_map, pairsOf_length]
    omega
  · intro i hi
    have hlt : i < bytes.length / 2 := by omega
    simp only [normalizeEven, List.getElem?_map, pairsOf_getElem? bytes i hlt,
      Option.map_some']
  · intro q hq
    simp only [normalizeEven, List.mem_map] at hq
    obtain ⟨p, hp, rfl⟩ := hq
    have hm := pairsOf_mem hp
    have hbd := int16OfLE_bounds (hb _ hm.1) (hb _ hm.2)
    have hz1 : (-32768 : ℚ) ≤ ((int16OfLE p.1 p.2 : Int) : ℚ) := by
      exact_mod_cast hbd.1
    have hz2 : ((int16OfLE p.1 p.2 : Int) : ℚ) < 32768 := by
      exact_mod_cast hbd.2
    constructor
    · rw [le_div_iff₀ (by norm_num : (0:ℚ) < 32768)]
      linarith
    · rw [div_lt_one (by norm_num : (0:ℚ) < 32768)]
      exact hz2

/-- Witness for C4 at the four-byte buffer of the spec's end-to-end
scenario (samples 0 and 32767). -/
theorem normalize_even_spec_witness :
    (([0, 0, 255, 127] : List Nat).length = 2 * 2) ∧
    ((∀ b ∈ ([0, 0, 255, 127] : List Nat), b < 256)) ∧
    (normalize [0, 0, 255, 127] = Except.ok (normalizeEven [0, 0, 255, 127]) ∧
     (normalizeEven [0, 0, 255, 127]).length = 2 ∧
     (∀ i, i < 2 → (normalizeEven [0, 0, 255, 127])[i]? =
       some ((int16OfLE (([0, 0, 255, 127] : List Nat).getD (2*i) 0)
         (([0, 0, 255, 127] : List Nat).getD (2*i+1) 0) : ℚ) / 32768)) ∧
     (∀ q ∈ normalizeEven [0, 0, 255, 127], -1 ≤ q ∧ q < 1)) :=
  ⟨by decide, by decide,
   normalize_even_spec [0, 0, 255, 127] 2 (by decide) (by decide)⟩

/-- C5: the sanitization pipeline is exactly the five spec steps in their
fixed order — join with single spaces, trim, greedy bracket removal,
quote escaping, then the correction rules sequentially. -/
theorem sanitize_step_order (co : List (Str → Str)) (segs : List Str) :
    sanitize co segs =
      stepCorrections co (stepQuotes (stepBrackets (stepTrim (stepJoin segs)))) :=
  rfl

/-- C6 counterexample: a configured correction rule runs after quote
escaping, so it can reintroduce an unescaped double-quote; with the
single segment a and a rule rewriting a to a double-quote, the output is
exactly one unescaped double-quote. -/
theorem corrections_break_escaping :
    okQuotes (sanitize [quoteInjectingRule] [['a']]) = false ∧
    sanitize [quoteInjectingRule] [['a']] = ['"'] := by
  constructor <;> decide

/-- C6 (amended): with the configured correction list empty — as in the
code, where corrections = [] — the sanitized output contains no
double-quote that is not immediately preceded by a backslash and no
substring matching the greedy bracket pattern. -/
theorem sanitize_output_invariant (segs : List Str) :
    okQuotes (sanitize [] segs) = true ∧
    hasBracketPair (sanitize [] segs) = false := by
  have hs : sanitize [] segs
      = quoteEsc (bracketSub (strip (List.intercalate [' '] segs))) := rfl
  rw [hs]
  refine ⟨okQuotesFrom_quoteEsc _ none, ?_⟩
  apply hasBracketPair_quoteEsc
  simp only [bracketSub]
  exact bracketSubF_noPair _ _ (le_refl _)

/-- C7: in the accumulating state, a binary frame appends its chunk and
emits nothing, while a text frame of any content triggers finalization —
the handler never inspects the sentinel's value. -/
theorem text_frame_dispatch (e : List ℚ → List Str) (co : List (Str → Str))
    (abuf : List (List Nat)) (c : List Nat) (s t : Str) :
    stepMsg e co abuf (Msg.binary c) = (abuf ++ [c], []) ∧
    stepMsg e co abuf (Msg.text s) = (abuf, finalize e co abuf) ∧
    stepMsg e co abuf (Msg.text s) = stepMsg e co abuf (Msg.text t) :=
  ⟨rfl, rfl, rfl⟩

/-- C8: the single outbound frame is the fixed JSON template with the
sanitized transcript spliced in; status, segment index, finality flag and
the placeholder id are literal constants independent of the session. -/
theorem response_wire_shape (e : List ℚ → List Str) (co : List (Str → Str))
    (chunks : List (List Nat)) (s : Str)
    (h : chunks.flatten.length % 2 = 0) :
    sentFrames (runMsgs e co [] (chunks.map Msg.binary ++ [Msg.text s])).2 =
      [("\x7b\"status\": 0, \"segment\": 0, \"result\": \x7b\"hypotheses\": [\x7b\"transcript\": \"").data
        ++ sanitize co (e (normalizeEven chunks.flatten))
        ++ ("\"\x7d], \"final\": true\x7d, \"id\": \"1aacc69d-3674-438a-b3c5-fc0ed51769a5\"\x7d").data] := by
  rw [runMsgs_binThenText]
  simp only [List.nil_append, finalize, normalize]
  rw [if_pos h]
  rfl

/-- Witness for C8 at the empty session with the stub engine. -/
theorem response_wire_shape_witness :
    ((([] : List (List Nat)).flatten.length % 2 = 0)) ∧
    (sentFrames (runMsgs engineStub [] [] (([] : List (List Nat)).map Msg.binary
        ++ [Msg.text (("x").data)])).2 =
      [("\x7b\"status\": 0, \"segment\": 0, \"result\": \x7b\"hypotheses\": [\x7b\"transcript\": \"").data
        ++ sanitize [] (engineStub (normalizeEven ([] : List (List Nat)).flatten))
        ++ ("\"\x7d], \"final\": true\x7d, \"id\": \"1aacc69d-3674-438a-b3c5-fc0ed51769a5\"\x7d").data]) :=
  ⟨by decide, response_wire_shape engineStub [] [] (("x").data) (by decide)⟩

/-- C9: a websocket error raised while sending the response or closing
the connection is caught by the handler's except clause, which returns
normally; the send is attempted exactly once and never retried. -/
theorem transport_error_caught (sendOut closeOut : SendOutcome)
    (h : sendOut = SendOutcome.wsError ∨ closeOut = SendOutcome.wsError) :
    (finalizeHandler sendOut closeOut).2.2 = ExitKind.normalReturn ∧
    (finalizeHandler sendOut closeOut).1 = 1 ∧
    (finalizeHandler sendOut closeOut).2.1 ≤ 1 := by
  cases sendOut <;> cases closeOut <;>
    simp [finalizeHandler, sendCloseBody, catchWebSocketError]

/-- Witness for C9 at a failing send. -/
theorem transport_error_caught_witness :
    ((SendOutcome.wsError = SendOutcome.wsError ∨
      SendOutcome.ok = SendOutcome.wsError)) ∧
    ((finalizeHandler SendOutcome.wsError SendOutcome.ok).2.2 = ExitKind.normalReturn ∧
     (finalizeHandler SendOutcome.wsError SendOutcome.ok).1 = 1 ∧
     (finalizeHandler SendOutcome.wsError SendOutcome.ok).2.1 ≤ 1) :=
  ⟨Or.inl rfl,
   transport_error_caught SendOutcome.wsError SendOutcome.ok (Or.inl rfl)⟩

/-- C10: finalization never drains the accumulator — after the whole
session, and after the text-frame step itself, the per-connection chunk
list still holds every appended chunk in arrival order. -/
theorem accumulator_not_drained (e : List ℚ → List Str) (co : List (Str → Str))
    (chunks : List (List Nat)) (s : Str) :
    (runMsgs e co [] (chunks.map Msg.binary ++ [Msg.text s])).1 = chunks ∧
    (stepMsg e co chunks (Msg.text s)).1 = chunks := by
  constructor
  · rw [runMsgs_binThenText]
    simp
  · rfl

end WhisperWS
